import Mathlib

/-!
Shallow embedding of `recon/nmap.py`: the bodies of `ThreadedNmap.run` and
`Searchsploit.run`.  Python dicts and sets are modelled as association lists
(dict keys are distinct, stated as `Nodup` hypotheses where needed), the
filesystem as the list of existing directory paths, and the external
subprocesses are left abstract: their captured streams are inputs to the
model, as the specification's "injected stub" testing notes describe.
-/

/-- A Python value, as far as the `threads` parameter is concerned: luigi
delivers either the integer default or a command-line string; `none` stands
for any value that is neither (for which `int(...)` raises `TypeError`). -/
inductive PyVal
  | int (n : Int)
  | str (s : String)
  | none
deriving DecidableEq

/-- The Python exceptions relevant to this code. -/
inductive PyExc
  | valueError
  | typeError
  | fileExistsError
deriving DecidableEq

/-- Value of a decimal digit run, most significant digit first. -/
def digitsToNat (cs : List Char) : Nat :=
  cs.foldl (fun a c => a * 10 + (c.toNat - 48)) 0

/-- Python `int(s)` on a string: optional surrounding spaces, an optional
sign, then a nonempty digit run; anything else raises `ValueError`.
(Underscore digit separators and non-space whitespace are not modelled.) -/
def parsePyInt (s : String) : Option Int :=
  let cs := ((s.data.dropWhile (fun c => c = ' ')).reverse.dropWhile (fun c => c = ' ')).reverse
  let signDigits : Int × List Char :=
    match cs with
    | '-' :: rest => (-1, rest)
    | '+' :: rest => (1, rest)
    | _ => (1, cs)
  if !signDigits.2.isEmpty && signDigits.2.all Char.isDigit then
    some (signDigits.1 * digitsToNat signDigits.2)
  else
    Option.none

/-- Python `int(x)` on the modelled values: an int passes through, a string
is parsed (`ValueError` when it does not parse), anything else raises
`TypeError`. -/
def pyToInt : PyVal → Except PyExc Int
  | .int n => .ok n
  | .str s =>
    match parsePyInt s with
    | some n => .ok n
    | Option.none => .error .valueError
  | .none => .error .typeError

/-- The characters of `",".join`, on lists of characters. -/
def joinCharLists : List (List Char) → List Char
  | [] => []
  | [x] => x
  | x :: y :: rest => x ++ ',' :: joinCharLists (y :: rest)

/-- Python `",".join(l)`. -/
def joinComma (l : List String) : String :=
  ⟨joinCharLists (l.map String.data)⟩

/-- Split a character list at every comma: the inverse of `joinCharLists`
on comma-free groups. -/
def splitCommaList : List Char → List (List Char)
  | [] => [[]]
  | c :: cs =>
    if c = ',' then [] :: splitCommaList cs
    else
      match splitCommaList cs with
      | [] => [[c]]
      | g :: gs => (c :: g) :: gs

/-- Split a string at every comma. -/
def splitComma (s : String) : List String :=
  (splitCommaList s.data).map String.mk

/-- The fully substituted nmap command list: `nmap_command` from the source
with index 2 overwritten by the scan-type flag and index 9 by the port list
(in the source, the adjacent literals `"PLACEHOLDER-IDX-2" "-n"` concatenate
into the single element at index 2, which the flag assignment overwrites),
then the `-oA` prefix argument and the target appended. -/
def nmapCmd (flag portList oaPrefix target : String) : List String :=
  ["nmap", "--open", flag, "-sC", "-T", "4", "-sV", "-Pn", "-p", portList, "-oA",
    oaPrefix, target]

/-- The pickled target map `{host: {protocol: set(ports)}}`, with dict and
set contents enumerated as association lists. -/
abbrev TargetPortMap := List (String × List (String × List String))

/-- `",".join(ports.difference(web_ports))` for one protocol entry. -/
def nonWebJoined (web ports : List String) : String :=
  joinComma (ports.filter (fun x => decide (x ∉ web)))

/-- The loop body for one (protocol, ports) entry of one host: the pair is
skipped when the joined non-web port string is empty (Python falsiness of
`""`), otherwise the command is built; the (host, protocol) pair the
iteration was for is kept alongside the command. -/
def protoInvocation (web : List String) (outdir target : String)
    (pe : String × List String) : Option (String × String × List String) :=
  let nonWebPorts := nonWebJoined web pe.2
  if nonWebPorts = "" then Option.none
  else
    some (target, pe.1,
      nmapCmd (if pe.1 = "tcp" then "-sT" else "-sU") nonWebPorts
        (outdir ++ "/nmap." ++ target ++ "-" ++ pe.1) target)

/-- All invocations built for one host entry of the map. -/
def hostInvocations (web : List String) (outdir : String)
    (he : String × List (String × List String)) : List (String × String × List String) :=
  he.2.filterMap (protoInvocation web outdir he.1)

/-- All invocations built by the nested loop over the target map. -/
def buildInvocations (web : List String) (outdir : String) (d : TargetPortMap) :
    List (String × String × List String) :=
  (d.map (hostInvocations web outdir)).flatten

/-- The invocations labelled with a given (host, protocol) pair. -/
def invocationsFor (h p : String) (l : List (String × String × List String)) :
    List (String × String × List String) :=
  l.filter (fun i => decide (i.1 = h) && decide (i.2.1 = p))

/-- `Path(p).mkdir(parents=True, exist_ok=existOk)` over a filesystem given
as the list of existing directories: a pre-existing directory is returned
unchanged when `exist_ok` is set and raises `FileExistsError` otherwise; a
missing directory is created (parent creation is implicit in this model). -/
def mkdirParents (existOk : Bool) (fs : List String) (path : String) :
    Except PyExc (List String) :=
  if path ∈ fs then
    if existOk then .ok fs else .error .fileExistsError
  else .ok (path :: fs)

/-- How a `ThreadedNmap.run` call ends: normal return, the logged abort of
the `except TypeError` handler, or an uncaught exception. -/
inductive Outcome
  | ok
  | loggedAbort
  | exc (e : PyExc)
deriving DecidableEq

/-- Observable result of one `ThreadedNmap.run` call: how it ended, what was
logged, the commands constructed by the loop, the commands handed to the
executor, the `max_workers` argument passed to the executor (when reached),
and the filesystem afterwards. -/
structure RunResult where
  outcome : Outcome
  logs : List String
  commands : List (List String)
  executed : List (List String)
  poolSize : Option Nat
  fs : List String
deriving DecidableEq

/-- The message logged by the `except TypeError` handler. -/
def threadsErrorMsg : String :=
  "The value supplied to --threads must be a non-negative integer."

/-- `ThreadedNmap.output().path`, the scan-results directory. -/
def nmapOutputDir (targetFile : String) : String :=
  targetFile ++ "-nmap-results"

/-- `ThreadedNmap.run`: coerce `threads` with `abs(int(...))` inside
`try/except TypeError` (so the `ValueError` an unparsable string raises
propagates uncaught, while a `TypeError` is logged and aborts the run), build
one command per (host, protocol) pair whose joined non-web port string is
non-empty, `mkdir` the output directory with `parents=True, exist_ok=True`,
then hand every command to `ThreadPoolExecutor(max_workers=threads)` —
whose constructor raises `ValueError` when `max_workers` is not positive —
and drain the pool before returning. -/
def threadedNmapRun (threads : PyVal) (ipDict : TargetPortMap) (web : List String)
    (targetFile : String) (fs : List String) : RunResult :=
  match pyToInt threads with
  | .error .typeError =>
    ⟨.loggedAbort, [threadsErrorMsg], [], [], Option.none, fs⟩
  | .error e => ⟨.exc e, [], [], [], Option.none, fs⟩
  | .ok n =>
    let t := n.natAbs
    let outdir := nmapOutputDir targetFile
    let cmds := (buildInvocations web outdir ipDict).map (fun i => i.2.2)
    match mkdirParents true fs outdir with
    | .error e => ⟨.exc e, [], cmds, [], Option.none, fs⟩
    | .ok fs2 =>
      if t = 0 then ⟨.exc .valueError, [], cmds, [], some t, fs2⟩
      else ⟨.ok, [], cmds, cmds, some t, fs2⟩

/-- `Searchsploit.output().path`, the lookup-results directory. -/
def searchsploitOutputDir (targetFile : String) : String :=
  targetFile ++ "-searchsploit-results"

/-- One pass of Python `str.replace` on character lists, replacing every
non-overlapping occurrence left to right; structurally recursive on a fuel
bound (callers pass the text length, which suffices for the nonempty
patterns used in the source). -/
def replaceFuel (pat rep : List Char) : Nat → List Char → List Char
  | _, [] => []
  | 0, cs => cs
  | fuel + 1, c :: rest =>
    if pat.isPrefixOf (c :: rest) then
      rep ++ replaceFuel pat rep fuel ((c :: rest).drop pat.length)
    else
      c :: replaceFuel pat rep fuel rest

/-- Python `s.replace(pat, rep)` for nonempty `pat`. -/
def pyReplace (s pat rep : String) : String :=
  ⟨replaceFuel pat.data rep.data s.data.length s.data⟩

/-- `PurePath.stem`: the file name without its last suffix; a name with no
dot, or with only a leading dot, is returned whole. -/
def pathStem (name : String) : String :=
  let rev := name.data.reverse
  let afterDot := rev.dropWhile (fun c => c ≠ '.')
  match afterDot with
  | [] => name
  | _ :: rest => if rest = [] then name else ⟨rest.reverse⟩

/-- Python `s[-3:]`: the last three characters (all of a shorter string). -/
def lastThree (s : String) : String :=
  ⟨(s.data.reverse.take 3).reverse⟩

/-- The `target` string computed in `Searchsploit.run`:
`stem.replace("nmap.", "").replace("-tcp", "").replace("-udp", "")`.
Python `str.replace` removes every occurrence, not only a prefix or a
suffix. -/
def searchsploitTarget (stem : String) : String :=
  pyReplace (pyReplace (pyReplace stem "nmap." "") "-tcp" "") "-udp" ""

/-- The loop body of `Searchsploit.run` for one globbed file, given the
file's name and the stderr captured from the lookup tool: when stderr is
non-empty (Python truthiness of bytes) the destination file
`searchsploit.{target}-{stem[-3:]}.txt` is written with the captured
bytes; otherwise nothing is written and nothing is raised. -/
def searchsploitProcess (destDir : String) (entry : String × String) :
    Option (String × String) :=
  if entry.2 = "" then Option.none
  else
    some (destDir ++ "/searchsploit." ++ searchsploitTarget (pathStem entry.1) ++ "-" ++
      lastThree (pathStem entry.1) ++ ".txt", entry.2)

/-- `Searchsploit.run` over the globbed `nmap*.xml` files, processed
sequentially; position `i` of the result is the file written for input `i`,
or nothing. -/
def searchsploitRun (destDir : String) (files : List (String × String)) :
    List (Option (String × String)) :=
  files.map (searchsploitProcess destDir)

/-- Target derivation as the specification words it: strip the fixed prefix
`nmap.` when present, then strip one fixed protocol suffix `-tcp` or `-udp`
when present.  Stated only for comparison against the source's
`searchsploitTarget`. -/
def specStripTarget (stem : String) : String :=
  let s1 : String := if "nmap.".data.isPrefixOf stem.data then ⟨stem.data.drop 5⟩ else stem
  if "-tcp".data.isSuffixOf s1.data then ⟨s1.data.take (s1.data.length - 4)⟩
  else if "-udp".data.isSuffixOf s1.data then ⟨s1.data.take (s1.data.length - 4)⟩
  else s1

/-- Modelled from the spec: the `ThreadPoolExecutor` used at the end of
`ThreadedNmap.run` is library code outside `src/`; spec section 5 describes
it as a fixed-size pool whose workers each run one queued invocation at a
time.  A pool state holds the queued, currently running, and completed
commands. -/
structure PoolState where
  pending : List (List String)
  running : List (List String)
  done : List (List String)
deriving DecidableEq

/-- Modelled from the spec: one scheduling step of the worker pool of width
`n` — an idle worker starts the next queued command only while fewer than
`n` commands run, and any running command may finish. -/
inductive PoolStep (n : Nat) : PoolState → PoolState → Prop
  | start (t : List String) (pending running done : List (List String)) :
      running.length < n →
      PoolStep n ⟨t :: pending, running, done⟩ ⟨pending, t :: running, done⟩
  | finish (t : List String) (pending r1 r2 done : List (List String)) :
      PoolStep n ⟨pending, r1 ++ t :: r2, done⟩ ⟨pending, r1 ++ r2, t :: done⟩

/-- Reflexive-transitive closure of `PoolStep`. -/
inductive PoolReach (n : Nat) : PoolState → PoolState → Prop
  | refl (s : PoolState) : PoolReach n s s
  | tail {s t u : PoolState} : PoolReach n s t → PoolStep n t u → PoolReach n s u

/-- The pool right after `executor.map`: everything queued, nothing started. -/
def initPool (cmds : List (List String)) : PoolState :=
  ⟨cmds, [], []⟩

/-- The drained pool the `with` block waits for before the task returns. -/
def poolDrained (s : PoolState) : Prop :=
  s.pending = [] ∧ s.running = []

/-- All commands owned by a pool state, as a multiset. -/
def poolLoad (s : PoolState) : Multiset (List String) :=
  ((s.pending ++ s.running ++ s.done : List (List String)) : Multiset (List String))

/-! ### String and join/split helper lemmas -/

theorem string_eq_empty_of_data {x : String} (h : x.data = []) : x = "" := by
  cases x
  cases h
  rfl

theorem stringMk_eq_empty_iff (cs : List Char) : String.mk cs = "" ↔ cs = [] := by
  rw [show ("" : String) = String.mk [] from rfl]
  constructor
  · intro h
    injection h
  · intro h
    rw [h]

theorem joinComma_ne_empty {l : List String} (hl : l ≠ []) (hne : ∀ s ∈ l, s ≠ "") :
    joinComma l ≠ "" := by
  intro h
  unfold joinComma at h
  rw [stringMk_eq_empty_iff] at h
  cases l with
  | nil => exact hl rfl
  | cons x l2 =>
    cases l2 with
    | nil =>
      simp only [List.map_cons, List.map_nil, joinCharLists] at h
      exact hne x (List.mem_singleton_self x) (string_eq_empty_of_data h)
    | cons y rest =>
      simp [joinCharLists] at h

theorem splitCommaList_no_comma {x : List Char} (hx : ',' ∉ x) :
    splitCommaList x = [x] := by
  induction x with
  | nil => rfl
  | cons c cs ih =>
    have hc : ¬ c = ',' := fun h => hx (h ▸ List.mem_cons_self c cs)
    have ht := ih (fun h => hx (List.mem_cons_of_mem _ h))
    simp [splitCommaList, hc, ht]

theorem splitCommaList_append {x t : List Char} (hx : ',' ∉ x) :
    splitCommaList (x ++ ',' :: t) = x :: splitCommaList t := by
  induction x with
  | nil => simp [splitCommaList]
  | cons c cs ih =>
    have hc : ¬ c = ',' := fun h => hx (h ▸ List.mem_cons_self c cs)
    have ht := ih (fun h => hx (List.mem_cons_of_mem _ h))
    simp [splitCommaList, hc, ht]

theorem splitCommaList_joinCharLists {l : List (List Char)} (hl : l ≠ [])
    (hc : ∀ x ∈ l, ',' ∉ x) :
    splitCommaList (joinCharLists l) = l := by
  induction l with
  | nil => exact absurd rfl hl
  | cons x rest ih =>
    cases rest with
    | nil => exact splitCommaList_no_comma (hc x (List.mem_singleton_self x))
    | cons y ys =>
      have hstep : joinCharLists (x :: y :: ys) = x ++ ',' :: joinCharLists (y :: ys) := rfl
      rw [hstep, splitCommaList_append (hc x (List.mem_cons_self x _)),
        ih (by simp) (fun z hz => hc z (List.mem_cons_of_mem _ hz))]

theorem splitComma_joinComma {l : List String} (hl : l ≠ [])
    (hc : ∀ s ∈ l, ',' ∉ s.data) :
    splitComma (joinComma l) = l := by
  unfold splitComma joinComma
  rw [show (String.mk (joinCharLists (l.map String.data))).data
      = joinCharLists (l.map String.data) from rfl]
  rw [splitCommaList_joinCharLists (by simpa using hl)
    (by
      intro x hx
      obtain ⟨s, hs, rfl⟩ := List.mem_map.mp hx
      exact hc s hs)]
  rw [List.map_map]
  exact List.map_id'' (fun s => rfl) l

/-! ### Structure lemmas for the invocation-building loop -/

theorem protoInvocation_eq_some {web : List String} {outdir target : String}
    {pe : String × List String} {i : String × String × List String} :
    protoInvocation web outdir target pe = some i ↔
      nonWebJoined web pe.2 ≠ "" ∧
      i = (target, pe.1,
        nmapCmd (if pe.1 = "tcp" then "-sT" else "-sU") (nonWebJoined web pe.2)
          (outdir ++ "/nmap." ++ target ++ "-" ++ pe.1) target) := by
  unfold protoInvocation
  split <;> simp_all [eq_comm]

theorem mem_hostInvocations {web : List String} {outdir : String}
    {he : String × List (String × List String)} {i : String × String × List String} :
    i ∈ hostInvocations web outdir he ↔
      ∃ pe ∈ he.2, protoInvocation web outdir he.1 pe = some i := by
  simp [hostInvocations, List.mem_filterMap]

theorem mem_buildInvocations {web : List String} {outdir : String} {d : TargetPortMap}
    {i : String × String × List String} :
    i ∈ buildInvocations web outdir d ↔
      ∃ he ∈ d, i ∈ hostInvocations web outdir he := by
  simp only [buildInvocations, List.mem_flatten, List.mem_map]
  constructor
  · rintro ⟨l, ⟨he, hhe, rfl⟩, hil⟩
    exact ⟨he, hhe, hil⟩
  · rintro ⟨he, hhe, hil⟩
    exact ⟨hostInvocations web outdir he, ⟨he, hhe, rfl⟩, hil⟩

theorem hostInvocations_fst {web : List String} {outdir : String}
    {he : String × List (String × List String)} {i : String × String × List String}
    (hi : i ∈ hostInvocations web outdir he) : i.1 = he.1 := by
  obtain ⟨pe, hpe, hsome⟩ := mem_hostInvocations.mp hi
  obtain ⟨-, rfl⟩ := protoInvocation_eq_some.mp hsome
  rfl

theorem invocationsFor_append (h p : String) (a b : List (String × String × List String)) :
    invocationsFor h p (a ++ b) = invocationsFor h p a ++ invocationsFor h p b :=
  List.filter_append a b

theorem invocationsFor_eq_nil_of_fst {h p : String} {l : List (String × String × List String)}
    (hl : ∀ i ∈ l, i.1 ≠ h) : invocationsFor h p l = [] := by
  apply List.filter_eq_nil_iff.mpr
  intro i hi
  simp [hl i hi]

theorem invocationsFor_eq_nil_of_snd {h p : String} {l : List (String × String × List String)}
    (hl : ∀ i ∈ l, i.2.1 ≠ p) : invocationsFor h p l = [] := by
  apply List.filter_eq_nil_iff.mpr
  intro i hi
  simp [hl i hi]

theorem invocationsFor_hostInvocations_miss {web : List String} {outdir h p t : String}
    {pd : List (String × List String)} (hp : p ∉ pd.map Prod.fst) :
    invocationsFor h p (hostInvocations web outdir (t, pd)) = [] := by
  apply invocationsFor_eq_nil_of_snd
  intro i hi
  obtain ⟨pe, hpe, hsome⟩ := mem_hostInvocations.mp hi
  obtain ⟨-, rfl⟩ := protoInvocation_eq_some.mp hsome
  intro hip
  have hip2 : pe.1 = p := hip
  have hpe1 : pe.1 ∈ pd.map Prod.fst := List.mem_map_of_mem Prod.fst hpe
  exact hp (hip2 ▸ hpe1)

theorem invocationsFor_hostInvocations_hit {web : List String} {outdir h p : String}
    {pd : List (String × List String)} {ports : List String} :
    (pd.map Prod.fst).Nodup → (p, ports) ∈ pd →
    invocationsFor h p (hostInvocations web outdir (h, pd)) =
      (protoInvocation web outdir h (p, ports)).toList := by
  induction pd with
  | nil =>
    intro _ hmem
    cases hmem
  | cons pe rest ih =>
    intro hnd hmem
    rw [List.map_cons, List.nodup_cons] at hnd
    obtain ⟨hhead, htail⟩ := hnd
    rcases List.mem_cons.mp hmem with heq | hmem2
    · have hpe1 : pe = (p, ports) := heq.symm
      subst hpe1
      have hmiss : p ∉ rest.map Prod.fst := hhead
      show invocationsFor h p (List.filterMap (protoInvocation web outdir h) ((p, ports) :: rest)) = _
      rw [List.filterMap_cons]
      cases hf : protoInvocation web outdir h (p, ports) with
      | none =>
        exact invocationsFor_hostInvocations_miss hmiss
      | some b =>
        obtain ⟨-, rfl⟩ := protoInvocation_eq_some.mp hf
        show invocationsFor h p (_ :: List.filterMap (protoInvocation web outdir h) rest) = _
        unfold invocationsFor
        rw [List.filter_cons]
        simp only [decide_True, Bool.and_self, if_true]
        have hrest : invocationsFor h p (hostInvocations web outdir (h, rest)) = [] :=
          invocationsFor_hostInvocations_miss hmiss
        unfold invocationsFor hostInvocations at hrest
        rw [hrest]
        rfl
    · have hp1 : p ∈ rest.map Prod.fst := List.mem_map_of_mem Prod.fst hmem2
      have hpne : pe.1 ≠ p := fun hq => hhead (hq ▸ hp1)
      show invocationsFor h p (List.filterMap (protoInvocation web outdir h) (pe :: rest)) = _
      rw [List.filterMap_cons]
      cases hf : protoInvocation web outdir h pe with
      | none =>
        exact ih htail hmem2
      | some b =>
        obtain ⟨-, rfl⟩ := protoInvocation_eq_some.mp hf
        unfold invocationsFor
        rw [List.filter_cons]
        simp only [hpne, decide_False, Bool.and_false, if_false]
        exact ih htail hmem2

theorem invocationsFor_buildInvocations_miss {web : List String} {outdir h p : String}
    {d : TargetPortMap} (hh : h ∉ d.map Prod.fst) :
    invocationsFor h p (buildInvocations web outdir d) = [] := by
  apply invocationsFor_eq_nil_of_fst
  intro i hi
  obtain ⟨he, hhe, hmem⟩ := mem_buildInvocations.mp hi
  rw [hostInvocations_fst hmem]
  intro hq
  exact hh (hq ▸ List.mem_map_of_mem Prod.fst hhe)

theorem invocationsFor_buildInvocations {web : List String} {outdir h p : String}
    {d : TargetPortMap} {pd : List (String × List String)} :
    (d.map Prod.fst).Nodup → (h, pd) ∈ d →
    invocationsFor h p (buildInvocations web outdir d) =
      invocationsFor h p (hostInvocations web outdir (h, pd)) := by
  induction d with
  | nil =>
    intro _ hmem
    cases hmem
  | cons he rest ih =>
    intro hnd hmem
    rw [List.map_cons, List.nodup_cons] at hnd
    obtain ⟨hhead, htail⟩ := hnd
    have hbi : buildInvocations web outdir (he :: rest) =
        hostInvocations web outdir he ++ buildInvocations web outdir rest := by
      simp [buildInvocations]
    rw [hbi, invocationsFor_append]
    rcases List.mem_cons.mp hmem with heq | hmem2
    · have hhe : he = (h, pd) := heq.symm
      subst hhe
      have hmiss : h ∉ rest.map Prod.fst := hhead
      rw [invocationsFor_buildInvocations_miss hmiss, List.append_nil]
    · have hne : he.1 ≠ h := by
        intro hq
        exact hhead (hq ▸ List.mem_map_of_mem Prod.fst hmem2)
      rw [invocationsFor_eq_nil_of_fst
        (fun i hi => by rw [hostInvocations_fst hi]; exact hne), List.nil_append]
      exact ih htail hmem2

/-- Claim C2: for every (host, protocol) pair of the map whose set of ports
minus the web ports is non-empty, exactly one invocation is built (the list
of invocations labelled with the pair is exactly one command), its scan-type
flag is `-sT` exactly when the protocol is `"tcp"` and `-sU` otherwise, and
splitting its comma-joined port argument gives back exactly the non-web
ports as a set.  The `Nodup` hypotheses state that dict keys are distinct;
the cleanliness hypothesis states that ports are nonempty comma-free
strings, as the data model's numeric port strings are. -/
theorem nonweb_pair_unique_invocation
    (web : List String) (outdir h p : String) (d : TargetPortMap)
    (pd : List (String × List String)) (ports : List String)
    (hkeys : (d.map Prod.fst).Nodup) (hd : (h, pd) ∈ d)
    (hpkeys : (pd.map Prod.fst).Nodup) (hpd : (p, ports) ∈ pd)
    (hclean : ∀ s ∈ ports, s ≠ "" ∧ ',' ∉ s.data)
    (hne : ports.filter (fun x => decide (x ∉ web)) ≠ []) :
    invocationsFor h p (buildInvocations web outdir d) =
      [(h, p,
        nmapCmd (if p = "tcp" then "-sT" else "-sU") (nonWebJoined web ports)
          (outdir ++ "/nmap." ++ h ++ "-" ++ p) h)] ∧
    (splitComma (nonWebJoined web ports)).toFinset = ports.toFinset \ web.toFinset := by
  have hjoin : nonWebJoined web ports ≠ "" :=
    joinComma_ne_empty hne (fun s hs => (hclean s (List.mem_of_mem_filter hs)).1)
  constructor
  · rw [invocationsFor_buildInvocations hkeys hd,
      invocationsFor_hostInvocations_hit hpkeys hpd]
    have hf : protoInvocation web outdir h (p, ports) =
        some (h, p,
          nmapCmd (if p = "tcp" then "-sT" else "-sU") (nonWebJoined web ports)
            (outdir ++ "/nmap." ++ h ++ "-" ++ p) h) := by
      unfold protoInvocation
      rw [if_neg hjoin]
    rw [hf]
    rfl
  · rw [show nonWebJoined web ports
        = joinComma (ports.filter (fun x => decide (x ∉ web))) from rfl,
      splitComma_joinComma hne
        (fun s hs => (hclean s (List.mem_of_mem_filter hs)).2)]
    ext x
    simp [List.mem_toFinset, List.mem_filter, Finset.mem_sdiff]

/-- Claim C3: a (host, protocol) pair whose ports all lie in the web-port
set is skipped: no invocation is labelled with it (and the model raises
nothing: `buildInvocations` is total). -/
theorem allweb_pair_skipped
    (web : List String) (outdir h p : String) (d : TargetPortMap)
    (pd : List (String × List String)) (ports : List String)
    (hkeys : (d.map Prod.fst).Nodup) (hd : (h, pd) ∈ d)
    (hpkeys : (pd.map Prod.fst).Nodup) (hpd : (p, ports) ∈ pd)
    (hweb : ∀ x ∈ ports, x ∈ web) :
    invocationsFor h p (buildInvocations web outdir d) = [] := by
  rw [invocationsFor_buildInvocations hkeys hd,
    invocationsFor_hostInvocations_hit hpkeys hpd]
  have hfil : ports.filter (fun x => decide (x ∉ web)) = [] :=
    List.filter_eq_nil_iff.mpr (fun x hx => by simp [hweb x hx])
  have hempty : nonWebJoined web ports = "" := by
    unfold nonWebJoined
    rw [hfil]
    rfl
  unfold protoInvocation
  rw [if_pos hempty]
  rfl

/-- Claim C6: every built invocation's command carries the `-oA` flag at
index 10, the output prefix `{outdir}/nmap.{host}-{protocol}` as the
argument right after it, and the host as the final positional argument. -/
theorem invocation_prefix_and_final_target
    (web : List String) (outdir : String) (d : TargetPortMap)
    (i : String × String × List String) (hi : i ∈ buildInvocations web outdir d) :
    i.2.2[10]? = some "-oA" ∧
    i.2.2[11]? = some (outdir ++ "/nmap." ++ i.1 ++ "-" ++ i.2.1) ∧
    i.2.2.getLast? = some i.1 := by
  obtain ⟨he, hhe, hmem⟩ := mem_buildInvocations.mp hi
  obtain ⟨pe, hpe, hsome⟩ := mem_hostInvocations.mp hmem
  obtain ⟨-, rfl⟩ := protoInvocation_eq_some.mp hsome
  exact ⟨rfl, rfl, rfl⟩

theorem invocation_prefix_and_final_target_witness :
    (("host1", "tcp", nmapCmd "-sT" "22" "out/nmap.host1-tcp" "host1") ∈
        buildInvocations [] "out" [("host1", [("tcp", ["22"])])]) ∧
    ("host1", "tcp", nmapCmd "-sT" "22" "out/nmap.host1-tcp" "host1").2.2[10]? = some "-oA" ∧
    ("host1", "tcp", nmapCmd "-sT" "22" "out/nmap.host1-tcp" "host1").2.2[11]? =
      some "out/nmap.host1-tcp" ∧
    ("host1", "tcp", nmapCmd "-sT" "22" "out/nmap.host1-tcp" "host1").2.2.getLast? =
      some "host1" := by
  have hm : ("host1", "tcp", nmapCmd "-sT" "22" "out/nmap.host1-tcp" "host1") ∈
      buildInvocations [] "out" [("host1", [("tcp", ["22"])])] := by decide
  have h := invocation_prefix_and_final_target [] "out" [("host1", [("tcp", ["22"])])] _ hm
  exact ⟨hm, h.1, h.2.1, h.2.2⟩

theorem nonweb_pair_unique_invocation_witness :
    ((([("10.10.10.1", [("tcp", ["22", "80", "443"])])] : TargetPortMap).map Prod.fst).Nodup) ∧
    (("tcp", ["22", "80", "443"]) ∈ [("tcp", ["22", "80", "443"])]) ∧
    (["22", "80", "443"].filter (fun x => decide (x ∉ (["80", "443"] : List String))) ≠ []) ∧
    invocationsFor "10.10.10.1" "tcp"
        (buildInvocations ["80", "443"] "out" [("10.10.10.1", [("tcp", ["22", "80", "443"])])]) =
      [("10.10.10.1", "tcp", nmapCmd "-sT" "22" "out/nmap.10.10.10.1-tcp" "10.10.10.1")] ∧
    (splitComma (nonWebJoined ["80", "443"] ["22", "80", "443"])).toFinset =
      (["22", "80", "443"] : List String).toFinset \ (["80", "443"] : List String).toFinset := by
  have h := nonweb_pair_unique_invocation ["80", "443"] "out" "10.10.10.1" "tcp"
    [("10.10.10.1", [("tcp", ["22", "80", "443"])])] [("tcp", ["22", "80", "443"])]
    ["22", "80", "443"] (by decide) (by decide) (by decide) (by decide) (by decide) (by decide)
  exact ⟨by decide, by decide, by decide, h.1.trans (by decide), h.2⟩

theorem allweb_pair_skipped_witness :
    (∀ x ∈ (["80"] : List String), x ∈ (["80"] : List String)) ∧
    invocationsFor "10.10.10.1" "tcp"
        (buildInvocations ["80"] "out" [("10.10.10.1", [("tcp", ["80"])])]) = [] :=
  ⟨by decide, allweb_pair_skipped ["80"] "out" "10.10.10.1" "tcp"
      [("10.10.10.1", [("tcp", ["80"])])] [("tcp", ["80"])] ["80"]
      (by decide) (by decide) (by decide) (by decide) (by decide)⟩

/-! ### ThreadedNmap.run: threads handling, mkdir, executor -/

theorem mkdirParents_true_ok (fs : List String) (p : String) :
    ∃ fs2, mkdirParents true fs p = .ok fs2 ∧ p ∈ fs2 := by
  by_cases hp : p ∈ fs
  · exact ⟨fs, by simp [mkdirParents, hp], hp⟩
  · exact ⟨p :: fs, by simp [mkdirParents, hp], List.mem_cons_self p fs⟩

/-- Claim C1 (code bug): with `threads = "abc"`, `int("abc")` raises
`ValueError`, which the source's `except TypeError` does not catch: the run
dies with an uncaught exception, nothing is logged, and no invocation is
constructed or executed — the logged configuration-error abort the claim
describes does not happen. -/
theorem threads_abc_uncaught_valueError (d : TargetPortMap) (web : List String)
    (tf : String) (fs : List String) :
    threadedNmapRun (.str "abc") d web tf fs =
      ⟨.exc .valueError, [], [], [], Option.none, fs⟩ := rfl

theorem threadedNmapRun_ok_iff (v : PyVal) (d : TargetPortMap) (web : List String)
    (tf : String) (fs : List String) :
    (threadedNmapRun v d web tf fs).outcome = .ok ↔
      ∃ n, pyToInt v = .ok n ∧ n.natAbs ≠ 0 := by
  obtain ⟨fs2, hm, -⟩ := mkdirParents_true_ok fs (nmapOutputDir tf)
  cases hv : pyToInt v with
  | error e => cases e <;> simp [threadedNmapRun, hv]
  | ok n => by_cases hn : n.natAbs = 0 <;> simp [threadedNmapRun, hv, hm, hn] <;> omega

theorem outdir_mem_of_ok (v : PyVal) (d : TargetPortMap) (web : List String)
    (tf : String) (fs : List String)
    (h : (threadedNmapRun v d web tf fs).outcome = .ok) :
    nmapOutputDir tf ∈ (threadedNmapRun v d web tf fs).fs := by
  obtain ⟨fs2, hm, hmem⟩ := mkdirParents_true_ok fs (nmapOutputDir tf)
  cases hv : pyToInt v with
  | error e => cases e <;> simp [threadedNmapRun, hv] at h
  | ok n =>
    by_cases hn : n.natAbs = 0
    · simp [threadedNmapRun, hv, hm, hn] at h
    · simp [threadedNmapRun, hv, hm, hn]
      exact hmem

/-- Claim C7: when a dispatch run succeeds, the output directory exists in
the resulting filesystem, and running the dispatch again on that filesystem
— the identically named output directory now pre-existing — succeeds as
well, because the directory creation uses `parents=True, exist_ok=True`. -/
theorem dispatch_rerun_ok (v : PyVal) (d : TargetPortMap) (web : List String)
    (tf : String) (fs : List String)
    (h : (threadedNmapRun v d web tf fs).outcome = .ok) :
    nmapOutputDir tf ∈ (threadedNmapRun v d web tf fs).fs ∧
    (threadedNmapRun v d web tf (threadedNmapRun v d web tf fs).fs).outcome = .ok :=
  ⟨outdir_mem_of_ok v d web tf fs h,
    (threadedNmapRun_ok_iff v d web tf _).mpr ((threadedNmapRun_ok_iff v d web tf fs).mp h)⟩

theorem dispatch_rerun_ok_witness :
    (threadedNmapRun (.int 2) [("h1", [("tcp", ["22"])])] [] "t" []).outcome = .ok ∧
    nmapOutputDir "t" ∈ (threadedNmapRun (.int 2) [("h1", [("tcp", ["22"])])] [] "t" []).fs ∧
    (threadedNmapRun (.int 2) [("h1", [("tcp", ["22"])])] [] "t"
        (threadedNmapRun (.int 2) [("h1", [("tcp", ["22"])])] [] "t" []).fs).outcome = .ok := by
  have h : (threadedNmapRun (.int 2) [("h1", [("tcp", ["22"])])] [] "t" []).outcome = .ok := by
    decide
  exact ⟨h, (dispatch_rerun_ok _ _ _ _ _ h).1, (dispatch_rerun_ok _ _ _ _ _ h).2⟩

/-- Claim C9: a negative integer `threads` is not rejected: `abs` silently
coerces it, nothing is logged, the run completes, and the worker pool is
sized `abs(threads)`. -/
theorem negative_threads_coerced (v : PyVal) (n : Int) (d : TargetPortMap)
    (web : List String) (tf : String) (fs : List String)
    (hv : pyToInt v = .ok n) (hn : n < 0) :
    (threadedNmapRun v d web tf fs).outcome = .ok ∧
    (threadedNmapRun v d web tf fs).logs = [] ∧
    (threadedNmapRun v d web tf fs).poolSize = some n.natAbs ∧
    (threadedNmapRun v d web tf fs).executed = (threadedNmapRun v d web tf fs).commands := by
  have ht : ¬ n.natAbs = 0 := by omega
  obtain ⟨fs2, hm, -⟩ := mkdirParents_true_ok fs (nmapOutputDir tf)
  simp [threadedNmapRun, hv, hm, ht]

theorem negative_threads_coerced_witness :
    pyToInt (.str "-3") = .ok (-3) ∧ ((-3 : Int) < 0) ∧
    (threadedNmapRun (.str "-3") [("h1", [("tcp", ["22"])])] [] "t" []).outcome = .ok ∧
    (threadedNmapRun (.str "-3") [("h1", [("tcp", ["22"])])] [] "t" []).poolSize = some 3 := by
  have h := negative_threads_coerced (.str "-3") (-3) [("h1", [("tcp", ["22"])])] [] "t" []
    (by rfl) (by decide)
  exact ⟨by rfl, by decide, h.1, by rw [h.2.2.1]; decide⟩

/-- Claim C10: a `threads` value that coerces to 0 passes the (miscast)
error handling, `abs(0) = 0` is handed to the executor as `max_workers`,
and the `ThreadPoolExecutor` constructor's rejection of a non-positive
worker count kills the dispatch before any invocation executes. -/
theorem zero_threads_pool_rejected (v : PyVal) (d : TargetPortMap) (web : List String)
    (tf : String) (fs : List String) (hv : pyToInt v = .ok 0) :
    (threadedNmapRun v d web tf fs).outcome = .exc .valueError ∧
    (threadedNmapRun v d web tf fs).executed = [] ∧
    (threadedNmapRun v d web tf fs).poolSize = some 0 := by
  obtain ⟨fs2, hm, -⟩ := mkdirParents_true_ok fs (nmapOutputDir tf)
  simp [threadedNmapRun, hv, hm]

theorem zero_threads_pool_rejected_witness :
    pyToInt (.str "0") = .ok 0 ∧
    (threadedNmapRun (.str "0") [("h1", [("tcp", ["22"])])] [] "t" []).outcome =
      .exc .valueError ∧
    (threadedNmapRun (.str "0") [("h1", [("tcp", ["22"])])] [] "t" []).executed = [] := by
  have h := zero_threads_pool_rejected (.str "0") [("h1", [("tcp", ["22"])])] [] "t" [] (by rfl)
  exact ⟨by rfl, h.1, h.2.1⟩

/-! ### Searchsploit.run -/

theorem searchsploitProcess_ne_none_iff (destDir : String) (entry : String × String) :
    searchsploitProcess destDir entry ≠ Option.none ↔ entry.2 ≠ "" := by
  unfold searchsploitProcess
  split <;> simp_all

/-- Claim C4: for every processed scan-result file, a lookup-result file is
written if and only if the captured stderr for that file is non-empty: slot
`i` of the run's results holds a written file exactly when input `i` exists
and its captured stream is non-empty.  An empty stream writes nothing and
raises nothing (`searchsploitProcess` is total). -/
theorem lookup_written_iff_stderr (destDir : String) (files : List (String × String))
    (i : Nat) :
    (∃ o, (searchsploitRun destDir files)[i]? = some (some o)) ↔
    (∃ e, files[i]? = some e ∧ e.2 ≠ "") := by
  rw [show searchsploitRun destDir files = files.map (searchsploitProcess destDir) from rfl,
    List.getElem?_map]
  cases hf : files[i]? with
  | none => simp
  | some e =>
    simp only [Option.map_some']
    constructor
    · rintro ⟨o, ho⟩
      rw [Option.some.injEq] at ho
      refine ⟨e, rfl, (searchsploitProcess_ne_none_iff destDir e).mp ?_⟩
      rw [ho]
      simp
    · rintro ⟨e2, he2, hne⟩
      rw [Option.some.injEq] at he2
      subst he2
      obtain ⟨o, ho⟩ := Option.ne_none_iff_exists'.mp
        ((searchsploitProcess_ne_none_iff destDir e).mpr hne)
      exact ⟨o, by rw [ho]⟩

/-- Claim C5, counterexample to the claim as stated: the source derives the
target with Python `str.replace`, which removes every occurrence of
`"nmap."`, `"-tcp"`, `"-udp"` anywhere in the stem, not only a prefix and a
suffix.  For the file `nmap.my-tcp-host-udp.xml` (host `my-tcp-host`,
protocol `udp`) the code writes `searchsploit.my-host-udp.txt`, while the
claimed prefix/suffix stripping (`specStripTarget`) would give
`searchsploit.my-tcp-host-udp.txt`. -/
theorem lookup_filename_strip_counterexample :
    searchsploitProcess "out" ("nmap.my-tcp-host-udp.xml", "EDB-ID") =
      some ("out/searchsploit.my-host-udp.txt", "EDB-ID") ∧
    "out/searchsploit." ++ specStripTarget (pathStem "nmap.my-tcp-host-udp.xml") ++ "-" ++
        lastThree (pathStem "nmap.my-tcp-host-udp.xml") ++ ".txt" =
      "out/searchsploit.my-tcp-host-udp.txt" ∧
    ("out/searchsploit.my-host-udp.txt" : String) ≠ "out/searchsploit.my-tcp-host-udp.txt" :=
  ⟨by decide, by decide, by decide⟩

/-- Claim C5 as amended: for every processed file with non-empty captured
stderr, the written file is `{dest}/searchsploit.{target}-{suffix}.txt`
where `target` removes every occurrence of `nmap.`, then `-tcp`, then
`-udp` from the filename stem (Python `str.replace` semantics) and `suffix`
is the last three characters of the stem; on stems whose host contains none
of those substrings internally this coincides with prefix/suffix stripping,
and `nmap.10.10.10.155-tcp.xml` yields `searchsploit.10.10.10.155-tcp.txt`
(see the witness). -/
theorem lookup_filename_replace_all (destDir : String) (files : List (String × String))
    (name err : String) (hmem : (name, err) ∈ files) (herr : err ≠ "") :
    some (destDir ++ "/searchsploit." ++ searchsploitTarget (pathStem name) ++ "-" ++
        lastThree (pathStem name) ++ ".txt", err) ∈ searchsploitRun destDir files := by
  have hp : searchsploitProcess destDir (name, err) =
      some (destDir ++ "/searchsploit." ++ searchsploitTarget (pathStem name) ++ "-" ++
        lastThree (pathStem name) ++ ".txt", err) := by
    simp [searchsploitProcess, herr]
  rw [← hp]
  exact List.mem_map_of_mem (searchsploitProcess destDir) hmem

theorem lookup_filename_replace_all_witness :
    (("nmap.10.10.10.155-tcp.xml", "EDB-ID") ∈
        [("nmap.10.10.10.155-tcp.xml", "EDB-ID")]) ∧
    ("EDB-ID" : String) ≠ "" ∧
    some ("out/searchsploit.10.10.10.155-tcp.txt", "EDB-ID") ∈
      searchsploitRun "out" [("nmap.10.10.10.155-tcp.xml", "EDB-ID")] := by
  refine ⟨by decide, by decide, ?_⟩
  have h := lookup_filename_replace_all "out" [("nmap.10.10.10.155-tcp.xml", "EDB-ID")]
    "nmap.10.10.10.155-tcp.xml" "EDB-ID" (by decide) (by decide)
  have hname : ("out" ++ "/searchsploit." ++
        searchsploitTarget (pathStem "nmap.10.10.10.155-tcp.xml") ++ "-" ++
        lastThree (pathStem "nmap.10.10.10.155-tcp.xml") ++ ".txt" : String) =
      "out/searchsploit.10.10.10.155-tcp.txt" := by decide
  rw [← hname]
  exact h

/-! ### The worker pool -/

theorem poolReach_running_le {n : Nat} {s1 s2 : PoolState} (h : PoolReach n s1 s2)
    (hs : s1.running.length ≤ n) : s2.running.length ≤ n := by
  induction h with
  | refl => exact hs
  | tail hr hstep ih =>
    cases hstep with
    | start t pending running done hlt =>
      simp only [List.length_cons]
      omega
    | finish t pending r1 r2 done =>
      simp only [List.length_append, List.length_cons] at ih ⊢
      omega

theorem poolReach_load_eq {n : Nat} {s1 s2 : PoolState} (h : PoolReach n s1 s2) :
    poolLoad s2 = poolLoad s1 := by
  induction h with
  | refl => rfl
  | tail hr hstep ih =>
    rw [← ih]
    cases hstep with
    | start t pending running done hlt =>
      simp only [poolLoad, Multiset.coe_eq_coe]
      exact List.perm_middle.append_right done
    | finish t pending r1 r2 done =>
      simp only [poolLoad, Multiset.coe_eq_coe]
      have h1 : List.Perm ((pending ++ (r1 ++ r2)) ++ (t :: done))
          (t :: ((pending ++ (r1 ++ r2)) ++ done)) := List.perm_middle
      have h2 : List.Perm (r1 ++ t :: r2) (t :: (r1 ++ r2)) := List.perm_middle
      have h3a : List.Perm ((pending ++ (r1 ++ t :: r2)) ++ done)
          ((pending ++ (t :: (r1 ++ r2))) ++ done) :=
        (h2.append_left pending).append_right done
      have h3b : List.Perm ((pending ++ (t :: (r1 ++ r2))) ++ done)
          (t :: ((pending ++ (r1 ++ r2)) ++ done)) :=
        List.perm_middle.append_right done
      exact h1.trans (h3a.trans h3b).symm

/-- Claim C8: along every schedule of the worker pool of width `n` starting
from the freshly filled queue, at most `n` commands run at any instant, and
any drained state — the only states in which the `with` block lets the task
report success — has completed exactly the queued commands. -/
theorem pool_bounded_and_drains (n : Nat) (cmds : List (List String)) (s : PoolState)
    (h : PoolReach n (initPool cmds) s) :
    s.running.length ≤ n ∧
    (poolDrained s → (s.done : Multiset (List String)) = (cmds : Multiset (List String))) := by
  refine ⟨poolReach_running_le h (by simp [initPool]), ?_⟩
  intro hd
  have hload := poolReach_load_eq h
  obtain ⟨h1, h2⟩ := hd
  simp only [poolLoad, initPool, h1, h2, List.append_nil, List.nil_append] at hload
  exact hload

theorem pool_bounded_and_drains_witness :
    (PoolState.mk [] [] [["nmap"]]).running.length ≤ 1 ∧
    (poolDrained (PoolState.mk [] [] [["nmap"]]) →
      ((PoolState.mk [] [] [["nmap"]]).done : Multiset (List String)) =
        ([["nmap"]] : List (List String))) := by
  refine pool_bounded_and_drains 1 [["nmap"]] (PoolState.mk [] [] [["nmap"]]) ?_
  have s1 : PoolStep 1 (initPool [["nmap"]]) (PoolState.mk [] [["nmap"]] []) :=
    PoolStep.start ["nmap"] [] [] [] (by decide)
  have s2 : PoolStep 1 (PoolState.mk [] [["nmap"]] []) (PoolState.mk [] [] [["nmap"]]) :=
    PoolStep.finish ["nmap"] [] [] [] []
  exact PoolReach.tail (PoolReach.tail (PoolReach.refl _) s1) s2
